import Mathlib

/-!
Shallow embedding of the fusedis FUSE adapter (src/fuse.rs) in Lean 4.

The adapter translates kernel FUSE callbacks (lookup, getattr, read, readdir)
into Redis operations.  Machine integers (u64, i64, usize) are modelled as
Nat / Int with explicit wrap-around where the source casts; the Redis driver,
connection pool and the RwLock around the global inode LRU cache are modelled
as an explicit environment record; each callback returns an `Outcome`
(either exactly one FUSE reply, or a Rust panic) together with the updated
inode cache.
-/

namespace Fusedis

/-- Constants from src/fuse.rs. -/
def RAW_START : Nat := 2

def RAW_END : Nat := 8191

def LOCK_START : Nat := 8192

def LOCK_END : Nat := 100000000000000

def KV_START : Nat := 400000000000000

def KV_END : Nat := 500000000000000

/-- libc ENOENT on Linux. -/
def ENOENT : Nat := 2

/-- libc EAGAIN on Linux. -/
def EAGAIN : Nat := 11

/-- Capacity of the global `INO_CACHE` LRU (`LruCache::new(1_000_000)`). -/
def INO_CACHE_CAP : Nat := 1000000

/-- The /raw help file contents (RAW_HELP in src/fuse.rs). -/
def RAW_HELP : String := "Send raw commands to Redis.\n\nTODO fill this in with how to use /raw\n"

/-- The /lock help file contents (LOCK_HELP in src/fuse.rs). -/
def LOCK_HELP : String := "Atomic locks via files.\n\nTODO fill this in with how to use /lock\n"

/-- The /kv help file contents (KV_HELP in src/fuse.rs). -/
def KV_HELP : String := "Key/Value store via files.\n\nTODO fill this in with how to use /kv\n"

/-- fuser::FileType, restricted to the variants the source constructs. -/
inductive FileType
  | Directory
  | RegularFile
deriving DecidableEq

/-- fuser::FileAttr; SystemTime fields are modelled as a Nat clock value. -/
structure FileAttr where
  ino : Nat
  size : Nat
  blocks : Nat
  atime : Nat
  mtime : Nat
  ctime : Nat
  crtime : Nat
  kind : FileType
  perm : Nat
  nlink : Nat
  uid : Nat
  gid : Nat
  rdev : Nat
  flags : Nat
  blksize : Nat
deriving DecidableEq

/-- The source's `DirEntry` tuple `(ino, type, attr, name, content)`. -/
structure DirEntry where
  ino : Nat
  kind : FileType
  attr : FileAttr
  name : String
  content : Option String
deriving DecidableEq

/-- The source's `ReadDirEntry` tuple `(ino, type, name)`. -/
structure ReadDirEntry where
  ino : Nat
  kind : FileType
  name : String
deriving DecidableEq

/-- The subset of src/config.rs `Config` the adapter reads. -/
structure Config where
  cluster_mode : Bool
  disable_raw : Bool
  read_only : Bool
  allow_other : Bool
  uid : Nat
  gid : Nat
  chmod : Nat
  max_results : Int
deriving DecidableEq

/-- UTF-8 encoding of one character, as the list of its bytes
(Rust `str::as_bytes` is the UTF-8 encoding of the string). -/
def utf8Char (c : Char) : List Nat :=
  let n := c.toNat
  if n < 128 then [n]
  else if n < 2048 then [192 + n / 64, 128 + n % 64]
  else if n < 65536 then [224 + n / 4096, 128 + n / 64 % 64, 128 + n % 64]
  else [240 + n / 262144, 128 + n / 4096 % 64, 128 + n / 64 % 64, 128 + n % 64]

/-- The UTF-8 bytes of a string: Rust `s.as_bytes()`. -/
def strBytes (s : String) : List Nat :=
  (s.data.map utf8Char).flatten

/-- Rust `s.len()`: the UTF-8 byte length of a string. -/
def byteLen (s : String) : Nat :=
  (strBytes s).length

/-- Rust `offset as usize` on an `i64`: two's-complement reinterpretation. -/
def i64ToUsize (o : Int) : Nat :=
  (o % (2 : Int) ^ 64).toNat

/-- The global `INO_CACHE : LruCache<u64, String>`, modelled as a
most-recently-used-first association list. -/
abbrev LRU : Type := List (Nat × String)

/-- `LruCache::put`: insert / refresh at the front, evict from the back
beyond capacity.  Refreshing an existing key first removes the old entry,
so the length never exceeds `INO_CACHE_CAP`. -/
def lruPut (c : LRU) (k : Nat) (v : String) : LRU :=
  ((k, v) :: (List.filter (fun p => p.1 != k) c)).take INO_CACHE_CAP

/-- `LruCache::peek`: the stored value, without promoting the entry. -/
def lruPeek (c : LRU) (k : Nat) : Option String :=
  (List.find? (fun p => p.1 == k) c).map (fun p => p.2)

/-- `LruCache::get`: the stored value, promoting the entry to
most-recently-used when present. -/
def lruGet (c : LRU) (k : Nat) : Option String × LRU :=
  match lruPeek c k with
  | some v => (some v, (k, v) :: List.filter (fun p => p.1 != k) c)
  | none => (none, c)

/-- HashMap lookup, on a HashMap modelled as an association list. -/
def alookup {β : Type} (l : List (Nat × β)) (k : Nat) : Option β :=
  (List.find? (fun p => p.1 == k) l).map (fun p => p.2)

/-- HashMap lookup keyed by strings. -/
def slookup {β : Type} (l : List (String × β)) (k : String) : Option β :=
  (List.find? (fun p => p.1 == k) l).map (fun p => p.2)

/-- HashMap insert (replaces any previous binding of the key). -/
def ainsert {β : Type} (l : List (Nat × β)) (k : Nat) (v : β) : List (Nat × β) :=
  (k, v) :: List.filter (fun p => p.1 != k) l

/-- The environment a callback runs against: the connection pool, the Redis
server, the `INO_CACHE` RwLock, the seahash function, and the clock.
`get k`: `none` = query error, `some none` = key absent, `some (some v)` = value.
`scan`: `none` = SCAN error, `some keys` = the keys the SCAN iterator yields.
`cacheLockOk`: whether acquiring the `INO_CACHE` write lock succeeds.
`hash`: `seahash::hash` over the UTF-8 bytes of a key (an arbitrary but
fixed 64-bit hash; its exact value is never needed by the adapter). -/
structure Env where
  connOk : Bool
  get : String → Option (Option String)
  scan : Option (List String)
  cacheLockOk : Bool
  hash : List Nat → Nat
  now : Nat

/-- The `KVFS` struct.  The two r2d2 pools are `Option`s in the source;
only their presence matters to the adapter (`pool.clone().unwrap()`),
so they are modelled by the Booleans `poolSome` / `clusterPoolSome`. -/
structure KVFS where
  config : Config
  poolSome : Bool
  clusterPoolSome : Bool
  direntries_by_ino : List (Nat × DirEntry)
  direntries_by_parent_ino : List (Nat × List (String × DirEntry))

/-- A FUSE reply: either a success payload or `reply.error(errno)`. -/
inductive FReply (α : Type)
  | ok (val : α)
  | error (errno : Nat)
deriving DecidableEq

/-- What a callback does with its reply channel: reply exactly once,
or panic (Rust unwind) without replying. -/
inductive Outcome (α : Type)
  | replied (r : FReply α)
  | panic
deriving DecidableEq

/-- `KVFS::get_attr` (src/fuse.rs): builds a `FileAttr` from the config;
the `path` argument is unused by the source (permissions TODO).
`SystemTime::now()` is passed in as `now`. -/
def KVFS.get_attr (fs : KVFS) (now : Nat) (_path : String) (kind : FileType)
    (ino : Nat) (size : Nat) : FileAttr :=
  { ino := ino
    size := size
    blocks := 0
    atime := now
    mtime := now
    ctime := now
    crtime := now
    kind := kind
    perm := fs.config.chmod
    nlink := 1
    uid := fs.config.uid
    gid := fs.config.gid
    rdev := 0
    flags := 0
    blksize := 512 }

/-- `KVFS::init_static_dirs`: builds the static root entries (".", "raw",
"raw:help" only when `disable_raw` is false; "lock", "lock:help", "kv",
"kv:help" always) and populates both static tables. -/
def KVFS.init_static_dirs (fs : KVFS) (now : Nat) : KVFS :=
  let root_entries : List DirEntry :=
    (if fs.config.disable_raw = false then
      [⟨1, FileType.Directory, fs.get_attr now "." FileType.Directory 1 0, ".", none⟩,
       ⟨2, FileType.RegularFile, fs.get_attr now "/raw" FileType.RegularFile 2 0, "raw", none⟩,
       ⟨3, FileType.RegularFile,
        fs.get_attr now "/raw:help" FileType.RegularFile 3 (byteLen RAW_HELP),
        "raw:help", some RAW_HELP⟩]
     else []) ++
    [⟨2048, FileType.Directory, fs.get_attr now "/lock" FileType.Directory 2048 0, "lock", none⟩,
     ⟨2049, FileType.RegularFile,
      fs.get_attr now "/lock:help" FileType.RegularFile 2049 (byteLen LOCK_HELP),
      "lock:help", some LOCK_HELP⟩,
     ⟨4096, FileType.Directory, fs.get_attr now "/kv" FileType.Directory 4096 0, "kv", none⟩,
     ⟨4097, FileType.RegularFile,
      fs.get_attr now "/kv:help" FileType.RegularFile 4097 (byteLen KV_HELP),
      "kv:help", some KV_HELP⟩]
  { fs with
    direntries_by_parent_ino :=
      ainsert fs.direntries_by_parent_ino 1 (root_entries.map (fun e => (e.name, e)))
    direntries_by_ino :=
      root_entries.foldl (fun m e => ainsert m e.ino e) fs.direntries_by_ino }

/-- A freshly mounted filesystem: the `KVFS` literal from main.rs
(`pool: None` / `cluster_pool: None`, then exactly one pool is set
according to `cluster_mode`) after `init_static_dirs`. -/
def mkKVFS (cfg : Config) (poolSome clusterPoolSome : Bool) (now : Nat) : KVFS :=
  KVFS.init_static_dirs ⟨cfg, poolSome, clusterPoolSome, [], []⟩ now

/-- The inode assignment expression for a KV key, as written (twice) in the
source: `seahash::hash(key.as_bytes()) % (KV_END - KV_START) + KV_START`. -/
def assign (hash : List Nat → Nat) (key : String) : Nat :=
  hash (strBytes key) % (KV_END - KV_START) + KV_START

/-- `KVFS::lookup`.  `name` is the `OsStr` argument: `none` models an OS
string that fails `into_string()` (non-UTF-8).  Returns the reply outcome
(payload = the attr and the generation passed to `reply.entry`) and the
updated `INO_CACHE`. -/
def KVFS.lookup (fs : KVFS) (env : Env) (cache : LRU) (parent : Nat)
    (name : Option String) : Outcome (FileAttr × Nat) × LRU :=
  match name with
  | none => (Outcome.replied (FReply.error ENOENT), cache)
  | some name_str =>
    if parent = 1 then
      match alookup fs.direntries_by_parent_ino parent with
      | some entries =>
        match slookup entries name_str with
        | some entry => (Outcome.replied (FReply.ok (entry.attr, 0)), cache)
        | none => (Outcome.replied (FReply.error ENOENT), cache)
      | none => (Outcome.replied (FReply.error ENOENT), cache)
    else if parent = 4096 then
      -- get_conn_eagain!(self.pool, reply): unwrap panics when pool is None
      if fs.poolSome = false then (Outcome.panic, cache)
      else if env.connOk = false then (Outcome.replied (FReply.error EAGAIN), cache)
      else
        match env.get name_str with
        | none => (Outcome.replied (FReply.error EAGAIN), cache)
        | some none => (Outcome.replied (FReply.error ENOENT), cache)
        | some (some value) =>
          let ino := env.hash (strBytes name_str) % (KV_END - KV_START) + KV_START
          let attr := fs.get_attr env.now ("/kv/" ++ name_str) FileType.RegularFile ino
            (byteLen value + 1)
          if env.cacheLockOk = false then (Outcome.replied (FReply.error EAGAIN), cache)
          else
            (Outcome.replied (FReply.ok (attr, byteLen value + 1)),
             lruPut cache ino name_str)
    else (Outcome.replied (FReply.error ENOENT), cache)

/-- `KVFS::getattr`.  Matches the inode against `0..=RAW_END`, then
`KV_START..=KV_END` (where it only acquires the cache lock, `get`s the
inode — a `println!` debug probe — and replies ENOENT), else ENOENT. -/
def KVFS.getattr (fs : KVFS) (env : Env) (cache : LRU) (ino : Nat) :
    Outcome FileAttr × LRU :=
  if ino ≤ RAW_END then
    match alookup fs.direntries_by_ino ino with
    | some v => (Outcome.replied (FReply.ok v.attr), cache)
    | none => (Outcome.replied (FReply.error ENOENT), cache)
  else if KV_START ≤ ino ∧ ino ≤ KV_END then
    if env.cacheLockOk = false then (Outcome.replied (FReply.error EAGAIN), cache)
    else
      let probe := lruGet cache ino
      (Outcome.replied (FReply.error ENOENT), probe.2)
  else (Outcome.replied (FReply.error ENOENT), cache)

/-- `KVFS::read`.  The `INO_CACHE` write lock is acquired before the range
dispatch.  Slicing `bytes[offset as usize..]` replies the suffix when the
cast offset is at most the byte length and panics (index out of range)
otherwise.  The `size` argument is unused by the source. -/
def KVFS.read (fs : KVFS) (env : Env) (cache : LRU) (ino : Nat) (_fh : Nat)
    (offset : Int) : Outcome (List Nat) × LRU :=
  if env.cacheLockOk = false then (Outcome.replied (FReply.error EAGAIN), cache)
  else if ino ≤ RAW_END then
    match alookup fs.direntries_by_ino ino with
    | some v =>
      match v.content with
      | some content =>
        let bytes := strBytes content
        let o := i64ToUsize offset
        if o ≤ bytes.length then (Outcome.replied (FReply.ok (bytes.drop o)), cache)
        else (Outcome.panic, cache)
      | none => (Outcome.replied (FReply.error ENOENT), cache)
    | none => (Outcome.replied (FReply.error ENOENT), cache)
  else if KV_START ≤ ino ∧ ino ≤ KV_END then
    match lruGet cache ino with
    | (some name, cache') =>
      if fs.poolSome = false then (Outcome.panic, cache')
      else if env.connOk = false then (Outcome.replied (FReply.error EAGAIN), cache')
      else
        match env.get name with
        | none => (Outcome.replied (FReply.error EAGAIN), cache')
        | some none => (Outcome.replied (FReply.error ENOENT), cache')
        | some (some value) =>
          let bytes := strBytes (value ++ "\n")
          let o := i64ToUsize offset
          if o ≤ bytes.length then (Outcome.replied (FReply.ok (bytes.drop o)), cache')
          else (Outcome.panic, cache')
    | (none, cache') => (Outcome.replied (FReply.error ENOENT), cache')
  else (Outcome.replied (FReply.error ENOENT), cache)

/-- The result of `KVFS::get_kv_direntries`: a Rust panic
(`self.pool.clone().unwrap()` on `None`), an `Err`, or the entry list. -/
inductive DirsResult
  | panicked
  | failed
  | listed (entries : List ReadDirEntry)
deriving DecidableEq

/-- The `for (i, key) in iter.enumerate()` loop of `get_kv_direntries`:
while `max_results == -1 || max_results > i`, assign the inode, push the
entry and `put` it into the `INO_CACHE`; otherwise break. -/
def kvScanLoop (hash : List Nat → Nat) (max_results : Int) :
    Nat → List String → LRU → List ReadDirEntry × LRU
  | _, [], cache => ([], cache)
  | i, key :: rest, cache =>
    if max_results = -1 ∨ max_results > (i : Int) then
      let key_str := key
      let ino := hash (strBytes key_str) % (KV_END - KV_START) + KV_START
      let out := kvScanLoop hash max_results (i + 1) rest (lruPut cache ino key_str)
      (⟨ino, FileType.RegularFile, key_str⟩ :: out.1, out.2)
    else ([], cache)

/-- `KVFS::get_kv_direntries`. -/
def KVFS.get_kv_direntries (fs : KVFS) (env : Env) (cache : LRU) :
    DirsResult × LRU :=
  if fs.poolSome = false then (DirsResult.panicked, cache)
  else if env.connOk = false then (DirsResult.failed, cache)
  else
    match env.scan with
    | none => (DirsResult.failed, cache)
    | some keys =>
      if env.cacheLockOk = false then (DirsResult.failed, cache)
      else
        let out := kvScanLoop env.hash fs.config.max_results 0 keys cache
        (DirsResult.listed out.1, out.2)

/-- The `for (i, entry) in entries.into_iter().enumerate().skip(offset)`
reply loop of `readdir`: each `reply.add(entry.0, i + 1, entry.1, entry.2)`
is recorded as an `(ino, next offset, type, name)` tuple.  The reply buffer
is modelled as unbounded (`add` never reports full). -/
def addLoop : Nat → List ReadDirEntry → List (Nat × Int × FileType × String)
  | _, [] => []
  | i, e :: rest => (e.ino, ((i : Int) + 1), e.kind, e.name) :: addLoop (i + 1) rest

/-- `KVFS::readdir`.  For ino 1 the source indexes
`self.direntries_by_parent_ino[&ino]`, which panics when the key is absent. -/
def KVFS.readdir (fs : KVFS) (env : Env) (cache : LRU) (ino : Nat) (_fh : Nat)
    (offset : Int) : Outcome (List (Nat × Int × FileType × String)) × LRU :=
  let first : List ReadDirEntry := [⟨1, FileType.Directory, ".."⟩]
  if ino = 1 then
    match alookup fs.direntries_by_parent_ino ino with
    | none => (Outcome.panic, cache)
    | some m =>
      let entries := first ++ m.map (fun p => ⟨p.2.ino, p.2.kind, p.2.name⟩)
      let o := i64ToUsize offset
      (Outcome.replied (FReply.ok (addLoop o (entries.drop o))), cache)
  else if ino = 4096 then
    match fs.get_kv_direntries env cache with
    | (DirsResult.panicked, cache') => (Outcome.panic, cache')
    | (DirsResult.failed, cache') => (Outcome.replied (FReply.error EAGAIN), cache')
    | (DirsResult.listed v, cache') =>
      let entries := first ++ v
      let o := i64ToUsize offset
      (Outcome.replied (FReply.ok (addLoop o (entries.drop o))), cache')
  else (Outcome.replied (FReply.error ENOENT), cache)

/-- The names emitted by a successful `readdir` call at offset 0. -/
def readdirNames (fs : KVFS) (env : Env) (cache : LRU) (ino : Nat) : List String :=
  match (fs.readdir env cache ino 0 0).1 with
  | Outcome.replied (FReply.ok l) => l.map (fun e => e.2.2.2)
  | _ => []

/-! Concrete fixtures used by counterexamples and witnesses. -/

/-- A concrete stand-in hash (the claims never depend on seahash values). -/
def hash0 : List Nat → Nat := fun _ => 0

/-- A concrete configuration: non-cluster, raw enabled, chmod 0o644. -/
def cfg0 : Config := ⟨false, false, false, false, 1000, 1000, 420, -1⟩

/-- A concrete healthy environment whose store holds `{"hello": "world"}`. -/
def env0 : Env where
  connOk := true
  get := fun k => if k = "hello" then some (some "world") else some none
  scan := some ["hello"]
  cacheLockOk := true
  hash := hash0
  now := 0

/-- A freshly mounted non-cluster filesystem over `cfg0`. -/
def fs0 : KVFS := mkKVFS cfg0 true false 0

/-- A cluster-mode mount: `pool = None`, `cluster_pool = Some(..)`. -/
def fsCluster : KVFS := mkKVFS { cfg0 with cluster_mode := true } false true 0

/-- `cfg0` with `max_results = -2` (a negative value other than `-1`). -/
def cfgNeg2 : Config := { cfg0 with max_results := -2 }

/-- A mount over `cfgNeg2`. -/
def fsNeg2 : KVFS := mkKVFS cfgNeg2 true false 0

/-- `cfg0` with `max_results = 0`. -/
def cfgZero : Config := { cfg0 with max_results := 0 }

/-- A mount over `cfgZero`. -/
def fsZero : KVFS := mkKVFS cfgZero true false 0

/-- C1, counterexample: the store holds an entry (`"hello" ↦ "world"`,
whose assigned inode is `400_000_000_000_000`), yet `getattr` on that
inode replies ENOENT instead of an attr of size `len("world")+1` — the
KV branch of `getattr` never queries the backing store. -/
theorem C1_counterexample :
    env0.get "hello" = some (some "world") ∧
    assign env0.hash "hello" = 400000000000000 ∧
    (fs0.getattr env0 [] 400000000000000).1 =
      Outcome.replied (FReply.error ENOENT) := by decide

/-- C2, counterexample: with `disable_raw = false`, `readdir(1)` also
emits the name `"."`, which is outside the claimed name set. -/
theorem C2_counterexample :
    cfg0.disable_raw = false ∧
    "." ∈ readdirNames fs0 env0 [] 1 ∧
    "." ∉ ["..", "raw", "raw:help", "lock", "lock:help", "kv", "kv:help"] := by decide

/-- C3: in cluster mode the non-cluster pool is `None`, and
`self.pool.clone().unwrap()` panics without replying: `lookup` under
`/kv`, `readdir` of `/kv`, and `read` of a cached KV inode all terminate
without producing a reply, refuting the reply-once claim on this
configuration (the spec marks failure to reply as a bug). -/
theorem C3_cluster_mode_panics :
    (fsCluster.lookup env0 [] 4096 (some "hello")).1 = Outcome.panic ∧
    (fsCluster.readdir env0 [] 4096 0 0).1 = Outcome.panic ∧
    (fsCluster.read env0 [(400000000000000, "hello")] 400000000000000 0 0).1 =
      Outcome.panic := by decide

/-- C5: reading the static help file `raw:help` (ino 3, logical size 68)
at offset 69, or the KV file `hello` (value `"world"`, logical size 6) at
offset 7, panics on the out-of-range slice `bytes[offset..]` instead of
replying an empty byte slice. -/
theorem C5_read_past_eof_panics :
    byteLen RAW_HELP = 68 ∧
    (fs0.read env0 [] 3 0 69).1 = Outcome.panic ∧
    byteLen "world" + 1 = 6 ∧
    (fs0.read env0 [(400000000000000, "hello")] 400000000000000 0 7).1 =
      Outcome.panic := by decide

/-- C6, counterexample: with `max_results = -2` and a store listing one
key, `get_kv_direntries` returns the empty listing (the guard only treats
`-1` as unbounded), not the entire listing. -/
theorem C6_counterexample :
    cfgNeg2.max_results = -2 ∧
    env0.scan = some ["hello"] ∧
    (fsNeg2.get_kv_direntries env0 []).1 = DirsResult.listed [] ∧
    (fsNeg2.readdir env0 [] 4096 0 0).1 =
      Outcome.replied (FReply.ok [(1, 1, FileType.Directory, "..")]) := by decide

/-- C7, counterexample: `readdir(4096)` with `max_results = 0` returns
exactly the single entry `".."` — no `(ino, Directory, ".")` entry is
ever synthesized for a non-root directory. -/
theorem C7_counterexample :
    cfgZero.max_results = 0 ∧
    env0.scan = some ["hello"] ∧
    (fsZero.readdir env0 [] 4096 0 0).1 =
      Outcome.replied (FReply.ok [(1, 1, FileType.Directory, "..")]) ∧
    "." ∉ readdirNames fsZero env0 [] 4096 := by decide

/-! Helper lemmas shared by several claims. -/

/-- The assigned inode of any key lies in `[KV_START, KV_END)`. -/
theorem assign_mem_range (hash : List Nat → Nat) (k : String) :
    KV_START ≤ assign hash k ∧ assign hash k < KV_END := by
  have h : hash (strBytes k) % (KV_END - KV_START) < KV_END - KV_START :=
    Nat.mod_lt _ (by decide)
  unfold assign KV_START KV_END at *
  omega

/-- Forward evaluation of a successful `/kv` lookup: the reply carries the
attr built at the assigned inode with size `len(value)+1`, and the cache
gains the `(ino → name)` binding. -/
theorem lookup_kv_ok (fs : KVFS) (env : Env) (cache : LRU) (name value : String)
    (hp : fs.poolSome = true) (hc : env.connOk = true) (hl : env.cacheLockOk = true)
    (hg : env.get name = some (some value)) :
    fs.lookup env cache 4096 (some name) =
      (Outcome.replied (FReply.ok
        (fs.get_attr env.now ("/kv/" ++ name) FileType.RegularFile
          (assign env.hash name) (byteLen value + 1), byteLen value + 1)),
       lruPut cache (assign env.hash name) name) := by
  simp [KVFS.lookup, hp, hc, hl, hg, assign]

/-- Every entry the KV scan loop emits carries the assigned inode of its name. -/
theorem kvScanLoop_ino (hash : List Nat → Nat) (mr : Int) :
    ∀ (keys : List String) (i : Nat) (cache : LRU) (e : ReadDirEntry),
      e ∈ (kvScanLoop hash mr i keys cache).1 → e.ino = assign hash e.name := by
  intro keys
  induction keys with
  | nil => intro i cache e h; simp [kvScanLoop] at h
  | cons k rest ih =>
    intro i cache e h
    simp only [kvScanLoop] at h
    split at h
    · rcases List.mem_cons.mp h with he | hrest
      · subst he; rfl
      · exact ih (i + 1) _ e hrest
    · simp at h

/-- C1, amended: for every inode in the KV range, `getattr` never queries
the backing store — it replies EAGAIN when the cache lock is poisoned and
ENOENT otherwise, regardless of whether an entry with that inode exists. -/
theorem C1_kv_getattr (fs : KVFS) (env : Env) (cache : LRU) (ino : Nat)
    (h1 : KV_START ≤ ino) (h2 : ino ≤ KV_END) :
    (fs.getattr env cache ino).1 =
      (if env.cacheLockOk then Outcome.replied (FReply.error ENOENT)
       else Outcome.replied (FReply.error EAGAIN)) := by
  have hraw : ¬ ino ≤ RAW_END := by
    unfold KV_START at h1; unfold RAW_END; omega
  unfold KVFS.getattr
  rw [if_neg hraw, if_pos ⟨h1, h2⟩]
  cases h : env.cacheLockOk <;> simp [h]

/-- C1, witness: the amended theorem applied at inode `KV_START` in the
healthy concrete environment. -/
theorem C1_kv_getattr_witness :
    KV_START ≤ KV_START ∧ KV_START ≤ KV_END ∧
    (fs0.getattr env0 [] KV_START).1 =
      (if env0.cacheLockOk then Outcome.replied (FReply.error ENOENT)
       else Outcome.replied (FReply.error EAGAIN)) :=
  ⟨le_refl _, by decide, C1_kv_getattr fs0 env0 [] KV_START (le_refl _) (by decide)⟩

/-- C8: the inode assigned to a key `k` is the pure function
`(H(k) mod (KV_END − KV_START)) + KV_START`, hence always lies in
`[KV_START, KV_START + 10^14)`; a successful `lookup` builds its attr at
exactly `assign H k`, and every `readdir` KV entry's inode is
`assign H (its name)` — the same name maps to the same inode in both. -/
theorem C8_assign_deterministic (hash : List Nat → Nat) (k : String) :
    (KV_START ≤ assign hash k ∧ assign hash k < KV_START + (KV_END - KV_START)) ∧
    (∀ (fs : KVFS) (env : Env) (cache : LRU) (value : String),
      env.hash = hash → fs.poolSome = true → env.connOk = true →
      env.cacheLockOk = true → env.get k = some (some value) →
      (fs.lookup env cache 4096 (some k)).1 =
        Outcome.replied (FReply.ok
          (fs.get_attr env.now ("/kv/" ++ k) FileType.RegularFile (assign hash k)
            (byteLen value + 1), byteLen value + 1))) ∧
    (∀ (mr : Int) (keys : List String) (i : Nat) (cache : LRU) (e : ReadDirEntry),
      e ∈ (kvScanLoop hash mr i keys cache).1 → e.ino = assign hash e.name) := by
  refine ⟨⟨(assign_mem_range hash k).1, ?_⟩, ?_, ?_⟩
  · have := (assign_mem_range hash k).2
    unfold KV_START KV_END at *
    omega
  · intro fs env cache value hh hp hc hl hg
    subst hh
    rw [lookup_kv_ok fs env cache k value hp hc hl hg]
  · intro mr keys i cache e h
    exact kvScanLoop_ino hash mr keys i cache e h

/-- C8, witness: the theorem instantiated at the concrete hash and key. -/
theorem C8_assign_deterministic_witness :
    (KV_START ≤ assign hash0 "hello" ∧
     assign hash0 "hello" < KV_START + (KV_END - KV_START)) ∧
    (fs0.lookup env0 [] 4096 (some "hello")).1 =
      Outcome.replied (FReply.ok
        (fs0.get_attr env0.now ("/kv/" ++ "hello") FileType.RegularFile
          (assign hash0 "hello") (byteLen "world" + 1), byteLen "world" + 1)) ∧
    (⟨assign hash0 "hello", FileType.RegularFile, "hello"⟩ : ReadDirEntry).ino =
      assign hash0 "hello" := by
  have h := C8_assign_deterministic hash0 "hello"
  exact ⟨h.1, h.2.1 fs0 env0 [] "world" rfl rfl rfl rfl (by decide),
    h.2.2 (-1) ["hello"] 0 [] _ (by decide)⟩

/-- C2, amended: for every configuration and driver state, `readdir(1)`
returns exactly the names `{., raw, raw:help, lock, lock:help, kv, kv:help}`
plus the synthetic `..` when `disable_raw = false`, and exactly
`{lock, lock:help, kv, kv:help}` plus `..` when `disable_raw = true`
(the root `.` entry is created only together with `/raw`). -/
theorem C2_root_listing (cfg : Config) (ps cps : Bool) (now : Nat) (env : Env)
    (cache : LRU) (n : String) :
    (n ∈ readdirNames (mkKVFS cfg ps cps now) env cache 1 ↔
      n ∈ (if cfg.disable_raw then ["..", "lock", "lock:help", "kv", "kv:help"]
           else ["..", ".", "raw", "raw:help", "lock", "lock:help", "kv", "kv:help"])) := by
  cases hdr : cfg.disable_raw <;>
    simp [readdirNames, KVFS.readdir, mkKVFS, KVFS.init_static_dirs, ainsert, alookup,
      addLoop, i64ToUsize, hdr]

/-- C10: the root `DirEntry` (ino 1, name ".") is inserted into the static
by-inode table exactly when `disable_raw = false`; hence `getattr(1)`
replies ENOENT under `disable_raw = true` and the root attr otherwise,
and `readdir(1)` emits "." exactly when `disable_raw = false`. -/
theorem C10_root_dot_entry (cfg : Config) (ps cps : Bool) (now : Nat) (env : Env)
    (cache : LRU) :
    (alookup (mkKVFS cfg ps cps now).direntries_by_ino 1 = none ↔
      cfg.disable_raw = true) ∧
    ((mkKVFS cfg ps cps now).getattr env cache 1).1 =
      (if cfg.disable_raw then Outcome.replied (FReply.error ENOENT)
       else Outcome.replied (FReply.ok
         ((mkKVFS cfg ps cps now).get_attr now "." FileType.Directory 1 0))) ∧
    ("." ∈ readdirNames (mkKVFS cfg ps cps now) env cache 1 ↔
      cfg.disable_raw = false) := by
  cases hdr : cfg.disable_raw <;>
    simp [readdirNames, KVFS.readdir, KVFS.getattr, KVFS.get_attr, mkKVFS,
      KVFS.init_static_dirs, ainsert, alookup, addLoop, i64ToUsize, RAW_END, hdr]

/-- UTF-8 encoding distributes over string concatenation. -/
theorem strBytes_append (a b : String) :
    strBytes (a ++ b) = strBytes a ++ strBytes b := by
  simp [strBytes, String.data_append]

/-- The newline appended by the adapter is the single byte 10. -/
theorem strBytes_newline : strBytes "\n" = [10] := by decide

/-- A nonnegative `i64` survives the `as usize` cast unchanged. -/
theorem i64ToUsize_of_nonneg (o : Int) (h0 : 0 ≤ o) (h63 : o < 2 ^ 63) :
    i64ToUsize o = o.toNat := by
  unfold i64ToUsize
  rw [Int.emod_eq_of_lt h0 (by omega)]

/-- Forward evaluation of a successful `/kv` read: with the name cached
for the assigned inode and the driver healthy, the reply is the byte
suffix of `value ++ "\n"` from the offset. -/
theorem read_kv_ok (fs : KVFS) (env : Env) (rcache : LRU) (name value : String)
    (hp : fs.poolSome = true) (hc : env.connOk = true) (hl : env.cacheLockOk = true)
    (hg : env.get name = some (some value))
    (hrc : lruPeek rcache (assign env.hash name) = some name)
    (o : Int) (h0 : 0 ≤ o) (h63 : o < 2 ^ 63)
    (hle : o.toNat ≤ byteLen value + 1) :
    (fs.read env rcache (assign env.hash name) 0 o).1 =
      Outcome.replied (FReply.ok ((strBytes value ++ [10]).drop o.toNat)) := by
  have hrange := assign_mem_range env.hash name
  have hraw : ¬ assign env.hash name ≤ RAW_END := by
    unfold KV_START at hrange; unfold RAW_END; omega
  have hkv : KV_START ≤ assign env.hash name ∧ assign env.hash name ≤ KV_END :=
    ⟨hrange.1, le_of_lt hrange.2⟩
  have hbytes : strBytes (value ++ "\n") = strBytes value ++ [10] := by
    rw [strBytes_append, strBytes_newline]
  have hlen : (strBytes (value ++ "\n")).length = byteLen value + 1 := by
    rw [hbytes, List.length_append]; rfl
  unfold KVFS.read
  rw [if_neg (by simp [hl]), if_neg hraw, if_pos hkv]
  unfold lruGet
  rw [hrc]
  simp only [hp, hc, hg]
  rw [i64ToUsize_of_nonneg o h0 h63, if_neg (by simp), if_neg (by simp),
    if_pos (by rw [hlen]; exact hle), hbytes]

/-- C4: for every key whose stored value is `V`, a successful lookup
reports size `|V|+1` (`|V|` the UTF-8 byte length), and a read of the
assigned inode at any i64 offset `0 ≤ o ≤ |V|+1` returns exactly the
byte suffix `(V ++ "\n")[o..]`; at offset 0 that is `V` followed by the
single newline byte. -/
theorem C4_kv_size_and_read (fs : KVFS) (env : Env) (cache rcache : LRU)
    (name value : String)
    (hp : fs.poolSome = true) (hc : env.connOk = true) (hl : env.cacheLockOk = true)
    (hg : env.get name = some (some value))
    (hrc : lruPeek rcache (assign env.hash name) = some name)
    (o : Int) (h0 : 0 ≤ o) (hle : o ≤ (byteLen value : Int) + 1) (h63 : o < 2 ^ 63) :
    (∃ attr gen c', fs.lookup env cache 4096 (some name) =
        (Outcome.replied (FReply.ok (attr, gen)), c') ∧
      attr.size = byteLen value + 1) ∧
    (fs.read env rcache (assign env.hash name) 0 o).1 =
      Outcome.replied (FReply.ok ((strBytes value ++ [10]).drop o.toNat)) ∧
    (fs.read env rcache (assign env.hash name) 0 0).1 =
      Outcome.replied (FReply.ok (strBytes value ++ [10])) := by
  refine ⟨⟨_, _, _, lookup_kv_ok fs env cache name value hp hc hl hg, rfl⟩, ?_, ?_⟩
  · exact read_kv_ok fs env rcache name value hp hc hl hg hrc o h0 h63 (by omega)
  · have h := read_kv_ok fs env rcache name value hp hc hl hg hrc 0 (by omega)
      (by omega) (by omega)
    simpa using h

/-- C4, witness: key "hello", value "world" (6 logical bytes), offset 3. -/
theorem C4_kv_size_and_read_witness :
    (∃ attr gen c', fs0.lookup env0 [] 4096 (some "hello") =
        (Outcome.replied (FReply.ok (attr, gen)), c') ∧
      attr.size = byteLen "world" + 1) ∧
    (fs0.read env0 [(assign env0.hash "hello", "hello")]
        (assign env0.hash "hello") 0 3).1 =
      Outcome.replied (FReply.ok ((strBytes "world" ++ [10]).drop (Int.toNat 3))) ∧
    (fs0.read env0 [(assign env0.hash "hello", "hello")]
        (assign env0.hash "hello") 0 0).1 =
      Outcome.replied (FReply.ok (strBytes "world" ++ [10])) :=
  C4_kv_size_and_read fs0 env0 [] [(assign env0.hash "hello", "hello")]
    "hello" "world" rfl rfl rfl (by decide) (by decide) 3 (by decide) (by decide)
    (by decide)

/-- With `max_results ≥ 0`, the scan loop started at index `i` emits at
most `max_results − i` entries. -/
theorem kvScanLoop_len_le (hash : List Nat → Nat) (mr : Int) (hmr : 0 ≤ mr) :
    ∀ (keys : List String) (i : Nat) (cache : LRU),
      (kvScanLoop hash mr i keys cache).1.length ≤ (mr - i).toNat := by
  intro keys
  induction keys with
  | nil => intro i cache; simp [kvScanLoop]
  | cons k rest ih =>
    intro i cache
    simp only [kvScanLoop]
    split
    · rename_i hcond
      have hgt : mr > (i : Int) := by
        rcases hcond with h | h
        · omega
        · exact h
      have := ih (i + 1) (lruPut cache
        (hash (strBytes k) % (KV_END - KV_START) + KV_START) k)
      simp only [List.length_cons]
      omega
    · simp

/-- With `max_results = -1`, the scan loop emits every key, in order. -/
theorem kvScanLoop_unbounded (hash : List Nat → Nat) :
    ∀ (keys : List String) (i : Nat) (cache : LRU),
      (kvScanLoop hash (-1) i keys cache).1.map (fun e => e.name) = keys := by
  intro keys
  induction keys with
  | nil => intro i cache; simp [kvScanLoop]
  | cons k rest ih =>
    intro i cache
    simp only [kvScanLoop, if_pos (Or.inl rfl), List.map_cons]
    exact congrArg (k :: ·) (ih (i + 1) _)

/-- With `max_results < -1`, the scan loop emits nothing. -/
theorem kvScanLoop_neg (hash : List Nat → Nat) (mr : Int) (hmr : mr < -1) :
    ∀ (keys : List String) (i : Nat) (cache : LRU),
      (kvScanLoop hash mr i keys cache).1 = [] := by
  intro keys i cache
  cases keys with
  | nil => simp [kvScanLoop]
  | cons k rest =>
    simp only [kvScanLoop]
    rw [if_neg]
    push_neg
    constructor
    · omega
    · omega

/-- C6, amended: `readdir(KV_DIR_INO)` emits at most `max_results` KV
entries when `max_results ≥ 0`, the entire listing when
`max_results = -1`, and — contrary to the claim — an empty listing for
every other negative value. -/
theorem C6_max_results (fs : KVFS) (env : Env) (cache : LRU) (keys : List String)
    (hp : fs.poolSome = true) (hc : env.connOk = true) (hl : env.cacheLockOk = true)
    (hs : env.scan = some keys) :
    ∃ entries c', fs.get_kv_direntries env cache = (DirsResult.listed entries, c') ∧
      (0 ≤ fs.config.max_results →
        (entries.length : Int) ≤ fs.config.max_results) ∧
      (fs.config.max_results = -1 → entries.map (fun e => e.name) = keys) ∧
      (fs.config.max_results < -1 → entries = []) := by
  refine ⟨(kvScanLoop env.hash fs.config.max_results 0 keys cache).1,
    (kvScanLoop env.hash fs.config.max_results 0 keys cache).2, ?_, ?_, ?_, ?_⟩
  · simp [KVFS.get_kv_direntries, hp, hc, hl, hs]
  · intro h
    have := kvScanLoop_len_le env.hash fs.config.max_results h keys 0 cache
    omega
  · intro h
    rw [h]
    exact kvScanLoop_unbounded env.hash keys 0 cache
  · intro h
    exact kvScanLoop_neg env.hash fs.config.max_results h keys 0 cache

/-- C6, witness: the amended theorem at the concrete mount
(`max_results = -1`), which lists the single stored key. -/
theorem C6_max_results_witness :
    ∃ entries c', fs0.get_kv_direntries env0 [] = (DirsResult.listed entries, c') ∧
      (0 ≤ fs0.config.max_results →
        (entries.length : Int) ≤ fs0.config.max_results) ∧
      (fs0.config.max_results = -1 → entries.map (fun e => e.name) = ["hello"]) ∧
      (fs0.config.max_results < -1 → entries = []) :=
  C6_max_results fs0 env0 [] ["hello"] rfl rfl rfl rfl

/-- `offset = 0` casts to `usize` 0. -/
theorem i64ToUsize_zero : i64ToUsize 0 = 0 := by
  simp [i64ToUsize]

/-- With `max_results = 0` the scan loop breaks before emitting anything. -/
theorem kvScanLoop_zero (hash : List Nat → Nat) :
    ∀ (keys : List String) (i : Nat) (cache : LRU),
      (kvScanLoop hash 0 i keys cache).1 = [] := by
  intro keys i cache
  cases keys with
  | nil => simp [kvScanLoop]
  | cons k rest =>
    simp only [kvScanLoop]
    rw [if_neg]
    push_neg
    constructor
    · omega
    · omega

/-- Evaluation of `get_kv_direntries` on a healthy driver. -/
theorem get_kv_direntries_ok (fs : KVFS) (env : Env) (cache : LRU)
    (keys : List String)
    (hp : fs.poolSome = true) (hc : env.connOk = true) (hl : env.cacheLockOk = true)
    (hs : env.scan = some keys) :
    fs.get_kv_direntries env cache =
      (DirsResult.listed (kvScanLoop env.hash fs.config.max_results 0 keys cache).1,
       (kvScanLoop env.hash fs.config.max_results 0 keys cache).2) := by
  simp [KVFS.get_kv_direntries, hp, hc, hl, hs]

/-- Every name in the reply loop's output comes from the entry list. -/
theorem addLoop_name_mem :
    ∀ (i : Nat) (es : List ReadDirEntry) (e : Nat × Int × FileType × String),
      e ∈ addLoop i es → e.2.2.2 ∈ es.map (fun r => r.name) := by
  intro i es
  induction es generalizing i with
  | nil => intro e h; simp [addLoop] at h
  | cons r rest ih =>
    intro e h
    simp only [addLoop, List.mem_cons] at h
    rcases h with he | hrest
    · subst he; simp
    · simpa using Or.inr (ih (i + 1) e hrest)

/-- Every entry the scan loop emits is named by one of the scanned keys. -/
theorem kvScanLoop_name_mem (hash : List Nat → Nat) (mr : Int) :
    ∀ (keys : List String) (i : Nat) (cache : LRU) (e : ReadDirEntry),
      e ∈ (kvScanLoop hash mr i keys cache).1 → e.name ∈ keys := by
  intro keys
  induction keys with
  | nil => intro i cache e h; simp [kvScanLoop] at h
  | cons k rest ih =>
    intro i cache e h
    simp only [kvScanLoop] at h
    split at h
    · rcases List.mem_cons.mp h with he | hrest
      · subst he; simp
      · exact List.mem_cons_of_mem _ (ih (i + 1) _ e hrest)
    · simp at h

/-- C7, amended: at offset 0 the first emitted entry is always the
synthetic `(1, Directory, "..")`; `readdir(KV_DIR_INO)` synthesizes no
`"."` entry — everything after `".."` is a scanned key — and with
`max_results = 0` it returns exactly the one entry `".."`. -/
theorem C7_readdir_structure (fs : KVFS) (env : Env) (cache : LRU)
    (keys : List String)
    (hp : fs.poolSome = true) (hc : env.connOk = true) (hl : env.cacheLockOk = true)
    (hs : env.scan = some keys) :
    (∀ (ino : Nat) (l : List (Nat × Int × FileType × String)) (c' : LRU),
      fs.readdir env cache ino 0 0 = (Outcome.replied (FReply.ok l), c') →
      l.head? = some (1, 1, FileType.Directory, "..")) ∧
    (∀ (l : List (Nat × Int × FileType × String)) (c' : LRU),
      fs.readdir env cache 4096 0 0 = (Outcome.replied (FReply.ok l), c') →
      ∀ e ∈ l, e.2.2.2 = ".." ∨ e.2.2.2 ∈ keys) ∧
    (fs.config.max_results = 0 →
      (fs.readdir env cache 4096 0 0).1 =
        Outcome.replied (FReply.ok [(1, 1, FileType.Directory, "..")])) := by
  have hdirs := get_kv_direntries_ok fs env cache keys hp hc hl hs
  refine ⟨?_, ?_, ?_⟩
  · intro ino l c' heq
    by_cases h1 : ino = 1
    · subst h1
      rcases halk : alookup fs.direntries_by_parent_ino 1 with _ | m <;>
        simp [KVFS.readdir, i64ToUsize_zero, halk, Prod.mk.injEq,
          Outcome.replied.injEq, FReply.ok.injEq] at heq
      rw [← heq.1]
      simp [addLoop]
    · by_cases h4 : ino = 4096
      · subst h4
        simp [KVFS.readdir, i64ToUsize_zero, hdirs, Prod.mk.injEq,
          Outcome.replied.injEq, FReply.ok.injEq] at heq
        rw [← heq.1]
        simp [addLoop]
      · simp [KVFS.readdir, h1, h4, Prod.mk.injEq] at heq
  · intro l c' heq
    simp [KVFS.readdir, i64ToUsize_zero, hdirs, Prod.mk.injEq,
      Outcome.replied.injEq, FReply.ok.injEq] at heq
    rw [← heq.1]
    intro e he
    have hname := addLoop_name_mem _ _ e (by simpa using he)
    simp only [List.map_cons, List.mem_cons] at hname
    rcases hname with h | h
    · exact Or.inl h
    · right
      simp only [List.mem_map] at h
      rcases h with ⟨r, hr, hrn⟩
      rw [← hrn]
      exact kvScanLoop_name_mem env.hash fs.config.max_results keys 0 cache r hr
  · intro hmr
    have hnil := kvScanLoop_zero env.hash keys 0 cache
    rw [← hmr] at hnil
    simp [KVFS.readdir, i64ToUsize_zero, hdirs, hnil, addLoop]

/-- C7, witness: the amended theorem at the `max_results = 0` mount. -/
theorem C7_readdir_structure_witness :
    ((fsZero.readdir env0 [] 1 0 0).1 =
      Outcome.replied (FReply.ok
        [(1, 1, FileType.Directory, ".."), (1, 2, FileType.Directory, "."),
         (2, 3, FileType.RegularFile, "raw"), (3, 4, FileType.RegularFile, "raw:help"),
         (2048, 5, FileType.Directory, "lock"),
         (2049, 6, FileType.RegularFile, "lock:help"),
         (4096, 7, FileType.Directory, "kv"),
         (4097, 8, FileType.RegularFile, "kv:help")]) ∧
    (fsZero.readdir env0 [] 4096 0 0).1 =
      Outcome.replied (FReply.ok [(1, 1, FileType.Directory, "..")])) ∧
    ([(1, 1, FileType.Directory, "..")].head? =
      some ((1 : Nat), (1 : Int), FileType.Directory, "..")) := by
  have h := C7_readdir_structure fsZero env0 [] ["hello"] rfl rfl rfl rfl
  refine ⟨⟨by decide, h.2.2 rfl⟩, ?_⟩
  exact h.1 4096 [(1, 1, FileType.Directory, "..")]
    (fsZero.readdir env0 [] 4096 0 0).2
    (by rw [← h.2.2 rfl])

/-- Sequential `put`s into the LRU, in call order. -/
def putAll (c : LRU) : List (Nat × String) → LRU
  | [] => c
  | p :: rest => putAll (lruPut c p.1 p.2) rest

/-- A fresh `put` is immediately retrievable (capacity is ≥ 1). -/
theorem lruPeek_put_self (c : LRU) (k : Nat) (v : String) :
    lruPeek (lruPut c k v) k = some v := by
  unfold lruPut lruPeek INO_CACHE_CAP
  rw [show (1000000 : Nat) = 999999 + 1 from rfl, List.take_succ_cons]
  simp

/-- The scan loop's final cache is the sequence of `put`s of its emitted
`(ino, name)` pairs. -/
theorem kvScanLoop_cache (hash : List Nat → Nat) (mr : Int) :
    ∀ (keys : List String) (i : Nat) (cache : LRU),
      (kvScanLoop hash mr i keys cache).2 =
        putAll cache
          ((kvScanLoop hash mr i keys cache).1.map (fun e => (e.ino, e.name))) := by
  intro keys
  induction keys with
  | nil => intro i cache; simp [kvScanLoop, putAll]
  | cons k rest ih =>
    intro i cache
    simp only [kvScanLoop]
    split
    · simp only [List.map_cons, putAll]
      exact ih (i + 1) _
    · simp [putAll]

/-- Filtering with a predicate that holds on a prefix keeps the prefix. -/
theorem filter_take_eq (c : LRU) (acc : List (Nat × String))
    (f : Nat × String → Bool)
    (h : c.take acc.length = acc) (hf : ∀ q ∈ acc, f q = true) :
    (c.filter f).take acc.length = acc := by
  have hc : c = acc ++ c.drop acc.length := by
    conv_lhs => rw [← List.take_append_drop acc.length c]
    rw [h]
  rw [hc, List.filter_append, List.filter_eq_self.mpr hf]
  exact List.take_left acc _

/-- A `put` on a cache whose front is `acc` (with inodes all different
from the new key, and room within capacity) fronts the new pair. -/
theorem lruPut_take_front (c : LRU) (acc : List (Nat × String)) (k : Nat)
    (v : String) (h : c.take acc.length = acc)
    (hne : ∀ q ∈ acc, q.1 ≠ k) (hcap : acc.length + 1 ≤ INO_CACHE_CAP) :
    (lruPut c k v).take (acc.length + 1) = (k, v) :: acc := by
  unfold lruPut
  rw [List.take_take, Nat.min_eq_left hcap, List.take_succ_cons,
    filter_take_eq c acc _ h (by intro q hq; simpa using hne q hq)]

/-- After sequentially putting pairwise-distinct inodes (all fresh with
respect to the prefix `acc`, and within capacity), the cache front is the
puts in reverse order followed by `acc`. -/
theorem putAll_take_front :
    ∀ (ps : List (Nat × String)) (c : LRU) (acc : List (Nat × String)),
      c.take acc.length = acc →
      (ps.map Prod.fst).Nodup →
      (∀ p ∈ ps, ∀ q ∈ acc, p.1 ≠ q.1) →
      acc.length + ps.length ≤ INO_CACHE_CAP →
      (putAll c ps).take (acc.length + ps.length) = ps.reverse ++ acc := by
  intro ps
  induction ps with
  | nil => intro c acc h _ _ _; simpa using h
  | cons p rest ih =>
    intro c acc h hnodup hfresh hcap
    have hne : ∀ q ∈ acc, q.1 ≠ p.1 := by
      intro q hq
      exact fun heq => hfresh p (List.mem_cons_self p rest) q hq heq.symm
    have hstep : (lruPut c p.1 p.2).take ((p :: acc).length) = p :: acc := by
      simpa using lruPut_take_front c acc p.1 p.2 h hne (by simp at hcap ⊢; omega)
    have hmap := hnodup
    simp only [List.map_cons, List.nodup_cons] at hmap
    have hrest := ih (lruPut c p.1 p.2) (p :: acc) hstep hmap.2 ?_ ?_
    · simp only [putAll]
      rw [show acc.length + (p :: rest).length = (p :: acc).length + rest.length by
        simp; omega]
      rw [hrest]
      simp
    · intro r hr q hq
      rcases List.mem_cons.mp hq with hq1 | hq2
      · subst hq1
        intro heq
        exact hmap.1 (heq ▸ List.mem_map_of_mem Prod.fst hr)
      · exact hfresh r (List.mem_cons_of_mem p hr) q hq2
    · simp at hcap ⊢
      omega

/-- If a pair sits in the cache's front and is the only pair there with
its inode, `peek` finds it. -/
theorem lruPeek_of_take (c : LRU) (pre : List (Nat × String))
    (h : c.take pre.length = pre) (p : Nat × String) (hp : p ∈ pre)
    (huniq : ∀ q ∈ pre, q.1 = p.1 → q = p) :
    lruPeek c p.1 = some p.2 := by
  have hc : c = pre ++ c.drop pre.length := by
    conv_lhs => rw [← List.take_append_drop pre.length c]
    rw [h]
  have hsome : ((pre.find? (fun q => q.1 == p.1)).isSome) := by
    rw [List.find?_isSome]
    exact ⟨p, hp, by simp⟩
  obtain ⟨q, hq⟩ := Option.isSome_iff_exists.mp hsome
  have hq1 : q.1 = p.1 := by simpa using List.find?_some hq
  have hq2 : q ∈ pre := List.mem_of_find?_eq_some hq
  have hqp : q = p := huniq q hq2 hq1
  unfold lruPeek
  rw [hc, List.find?_append, hq, hqp]
  rfl

/-- C9: a successful `lookup(KV_DIR_INO, name)` inserts
`(assign(name) → name)` into the resolver cache together with its reply,
after which `resolve(assign(name))` returns `name`; a successful
`readdir(KV_DIR_INO)` listing does the same for every emitted key —
provided the emitted inodes do not collide and the listing fits in the
cache capacity (no LRU eviction). -/
theorem C9_cache_population (fs : KVFS) (env : Env) (cache : LRU)
    (name value : String) (keys : List String)
    (hp : fs.poolSome = true) (hc : env.connOk = true) (hl : env.cacheLockOk = true)
    (hg : env.get name = some (some value)) (hs : env.scan = some keys) :
    lruPeek (fs.lookup env cache 4096 (some name)).2 (assign env.hash name) =
      some name ∧
    (∀ (entries : List ReadDirEntry) (c' : LRU),
      fs.get_kv_direntries env cache = (DirsResult.listed entries, c') →
      (entries.map (fun e => e.ino)).Nodup →
      entries.length ≤ INO_CACHE_CAP →
      ∀ e ∈ entries, lruPeek c' e.ino = some e.name) := by
  constructor
  · rw [lookup_kv_ok fs env cache name value hp hc hl hg]
    exact lruPeek_put_self cache (assign env.hash name) name
  · intro entries c' heq hnodup hcap e he
    have hok := get_kv_direntries_ok fs env cache keys hp hc hl hs
    rw [heq] at hok
    have hent : entries = (kvScanLoop env.hash fs.config.max_results 0 keys cache).1 := by
      have := congrArg Prod.fst hok
      simpa using this
    have hcache : c' = (kvScanLoop env.hash fs.config.max_results 0 keys cache).2 := by
      have := congrArg Prod.snd hok
      simpa using this
    subst hent
    rw [hcache, kvScanLoop_cache env.hash fs.config.max_results keys 0 cache]
    set entries := (kvScanLoop env.hash fs.config.max_results 0 keys cache).1 with hentdef
    set ps := entries.map (fun e => (e.ino, e.name)) with hpsdef
    have hpsfst : ps.map Prod.fst = entries.map (fun e => e.ino) := by
      rw [hpsdef, List.map_map]
      rfl
    have hnodup' : (ps.map Prod.fst).Nodup := by rw [hpsfst]; exact hnodup
    have hfront := putAll_take_front ps cache [] (by simp) hnodup' (by simp)
      (by simpa [hpsdef] using hcap)
    simp only [List.length_nil, Nat.zero_add, List.append_nil] at hfront
    have hpmem : (e.ino, e.name) ∈ ps := by
      rw [hpsdef]
      exact List.mem_map_of_mem _ he
    have huniq : ∀ q ∈ ps.reverse, q.1 = (e.ino, e.name).1 → q = (e.ino, e.name) := by
      intro q hq hq1
      have hq' : q ∈ ps := List.mem_reverse.mp hq
      exact List.inj_on_of_nodup_map hnodup' hq' hpmem hq1
    have := lruPeek_of_take (putAll cache ps) ps.reverse
      (by simpa using hfront) (e.ino, e.name) (List.mem_reverse.mpr hpmem) huniq
    simpa using this

/-- C9, witness: the theorem at the concrete mount: after looking up
"hello" (and after listing `/kv`), the resolver maps its assigned inode
back to "hello". -/
theorem C9_cache_population_witness :
    lruPeek (fs0.lookup env0 [] 4096 (some "hello")).2 (assign env0.hash "hello") =
      some "hello" ∧
    lruPeek (fs0.get_kv_direntries env0 []).2 (assign env0.hash "hello") =
      some "hello" := by
  have h := C9_cache_population fs0 env0 [] "hello" "world" ["hello"]
    rfl rfl rfl (by decide) rfl
  refine ⟨h.1, ?_⟩
  have h2 := h.2 [⟨assign env0.hash "hello", FileType.RegularFile, "hello"⟩]
    (fs0.get_kv_direntries env0 []).2 (by decide) (by decide) (by decide)
    ⟨assign env0.hash "hello", FileType.RegularFile, "hello"⟩ (by decide)
  simpa using h2

end Fusedis
